import Mathlib

/-!
# discord-musicbot: song pipeline, guild queue and playback loop

A shallow embedding of `song.go` and `main.go`.

* Go strings are Lean strings; a byte is a `Fin 256`; a slice is a `List`.
* A nil-able pointer field (`*string`, `*[][]byte`) is an `Option`.
* A runtime panic (nil dereference, index out of range, negative `make`) is an
  explicit outcome, never an error value.
* Calls that leave the process (the file system, `yt-dlp`, the `dca` encoder,
  the Discord session, `encoding/json`) are parameters giving their outcome.
-/

namespace MusicBot

/-! ## Data model (`song.go` 17-24, `main.go` 230-235) -/

abbrev Byte := Fin 256

/-- One opus frame: the payload bytes of one record of the dca file. -/
abbrev Frame := List Byte

/-- The struct `song` of `song.go`. -/
structure song where
  FileName : String
  Url : String
  GuildID : String
  Name : Option String
  FullFileName : Option String
  Buffer : Option (List Frame)
deriving DecidableEq, Repr

/-- The struct `songQueue` of `main.go`. -/
structure songQueue where
  GuildID : String
  Songs : List song
deriving DecidableEq, Repr

/-- Error values that the modelled calls can return. -/
inductive GoErr
  | eof
  | unexpectedEOF
  | os (what : String)
  | tool (what : String)
deriving DecidableEq, Repr

deriving instance DecidableEq for Except

/-- How a Go function call ends: `return nil`, `return err`, or a runtime panic. -/
inductive Ret
  | ok
  | err (e : GoErr)
  | panic
deriving DecidableEq, Repr

/-! ## `song.load` (`song.go` 121-177) -/

/-- The function `io.ReadFull` on the unread rest of an in-memory file: exactly
`n` bytes and the new rest, `io.EOF` when `n > 0` and nothing is left,
`io.ErrUnexpectedEOF` when some but fewer than `n` bytes are left. -/
def readFull (n : Nat) (file : List Byte) : Except GoErr (List Byte × List Byte) :=
  if n = 0 then .ok ([], file)
  else if file.length = 0 then .error .eof
  else if file.length < n then .error .unexpectedEOF
  else .ok (file.take n, file.drop n)

/-- Two bytes decoded as a little-endian `int16`. -/
def int16LE (bs : List Byte) : Int :=
  let u : Nat := (bs.getD 0 0).val + 256 * (bs.getD 1 0).val
  if u < 32768 then (u : Int) else (u : Int) - 65536

/-- How the read loop of `load` ends. -/
inductive LoadResult
  | done (buffer : List Frame)
  | failed (e : GoErr)
  | panic
deriving DecidableEq, Repr

/-- The `for` loop of `load` (lines 133-159). One unit of fuel is one iteration;
`none` means the fuel ran out. -/
def readFrames : Nat → List Byte → List Frame → Option LoadResult
  | 0, _, _ => none
  | fuel + 1, file, buffer =>
    match readFull 2 file with
    | .error .eof => some (.done buffer)
    | .error .unexpectedEOF => some (.done buffer)
    | .error e => some (.failed e)
    | .ok (hdr, rest) =>
      let opuslen := int16LE hdr
      -- `make([]byte, opuslen)` panics on a negative length
      if opuslen < 0 then some .panic
      else
        match readFull opuslen.toNat rest with
        | .error e => some (.failed e)
        | .ok (inBuf, rest') => readFrames fuel rest' (buffer ++ [inBuf])

/-- Outcomes of the `os` calls of `load`: the bytes `os.Open` gives for a name
(`none`: it fails), and whether `file.Close` and `os.Remove` succeed. -/
structure FileSys where
  openFile : String → Option (List Byte)
  closeOk : Bool
  removeOk : Bool

/-- The method `song.load`: the song afterwards and how the call ended. Every
iteration of the read loop consumes at least two bytes, so the length of the
file plus one is enough fuel. -/
def song.load (s : song) (fs : FileSys) : Option (song × Ret) :=
  match s.FullFileName with
  | none => some (s, .panic)
  | some name =>
    match fs.openFile name with
    | none => some (s, .err (.os "open"))
    | some bytes =>
      match readFrames (bytes.length + 1) bytes [] with
      | none => none
      | some .panic => some (s, .panic)
      | some (.failed e) => some (s, .err e)
      | some (.done buffer) =>
        if !fs.closeOk then some (s, .err (.os "close"))
        else
          let s' := { s with Buffer := some buffer }
          if !fs.removeOk then some (s', .err (.os "remove"))
          else some (s', .ok)

/-! ## The frame container (the dca file read by `load`)

The file is written by the `dca` encoder, outside the repository; its layout
is the one of section 6 of the specification: a sequence of records, each a
little-endian 16-bit length prefix followed by that many payload bytes. -/

/-- A length below 65536 as two little-endian bytes. -/
def le16 (n : Nat) : List Byte :=
  [Fin.ofNat (n % 256), Fin.ofNat (n / 256)]

/-- One record: the 16-bit length prefix, then the payload. -/
def encodeFrame (p : Frame) : List Byte := le16 p.length ++ p

/-- The container: the records of the frames, in order. -/
def encodeFrames : List Frame → List Byte
  | [] => []
  | p :: ps => encodeFrame p ++ encodeFrames ps

/-! ## The registry `songQueues` (`main.go` 230-235, 565-574) -/

/-- The function `songQueueByGuildID`: the first queue of the registry with the
guild id, `none` for the nil pointer. -/
def songQueueByGuildID : List songQueue → String → Option songQueue
  | [], _ => none
  | q :: qs, guildID => if q.GuildID = guildID then some q else songQueueByGuildID qs guildID

/-- The assignment `currentSongQueue.Songs = songs` through the pointer that
`songQueueByGuildID` returned: it writes the first queue with the guild id. -/
def setSongs : List songQueue → String → List song → List songQueue
  | [], _, _ => []
  | q :: qs, guildID, songs =>
    if q.GuildID = guildID then { q with Songs := songs } :: qs
    else q :: setSongs qs guildID songs

/-- The `Songs` of the queue of a guild; the empty list when none is registered. -/
def songsOf (songQueues : List songQueue) (guildID : String) : List song :=
  match songQueueByGuildID songQueues guildID with
  | none => []
  | some q => q.Songs

/-! ## `handleSkip` (`main.go` 534-563) -/

/-- What one call of `handleSkip` does: the registry afterwards, the text given
to `qResponse`, and how the call ended. -/
structure SkipResult where
  queues : List songQueue
  response : Option String
  ret : Ret
deriving DecidableEq, Repr

/-- The function `handleSkip` (lines 545-562). `Songs[0]` on an empty slice is
an index-out-of-range panic; `*skippedSongName` is read after the removal. -/
def handleSkip (songQueues : List songQueue) (guildID : String) : SkipResult :=
  match songQueueByGuildID songQueues guildID with
  | none => { queues := songQueues, response := some "No songs in queue", ret := .ok }
  | some currentSongQueue =>
    match currentSongQueue.Songs with
    | [] => { queues := songQueues, response := none, ret := .panic }
    | first :: rest =>
      let queues := setSongs songQueues guildID rest
      match first.Name with
      | none => { queues := queues, response := none, ret := .panic }
      | some skippedSongName =>
        { queues := queues, response := some (skippedSongName ++ " skipped"), ret := .ok }

/-! ## `handlePlay` (`main.go` 237-343) and the pipeline of `song.go` -/

/-- The function `strings.HasPrefix`. -/
def hasPrefix (s pre : String) : Bool := pre.data.isPrefixOf s.data

/-- The callback of `filepath.Walk` in `find` over the entries of the walk, in
walk order: an entry is a file name or the error the walk reports for it. The
result is `FullFileName` afterwards and the error that stopped the walk. -/
def findWalk (fileName : String) :
    List (Except GoErr String) → Option String → Option String × Option GoErr
  | [], full => (full, none)
  | .error e :: _, full => (full, some e)
  | .ok name :: rest, full =>
    findWalk fileName rest (if hasPrefix name fileName then some name else full)

/-- The method `song.find` (lines 59-80). -/
def song.find (s : song) (walk : List (Except GoErr String)) : song × Ret :=
  match findWalk s.FileName walk s.FullFileName with
  | (full, some e) => ({ s with FullFileName := full }, .err e)
  | (none, none) => ({ s with FullFileName := none }, .err (.os "could not find song file"))
  | (some full, none) => ({ s with FullFileName := some full }, .ok)

/-- Outcomes of the calls of `download`: whether the `yt-dlp` run succeeds,
the entries of the directory walk, and the output of the title query. -/
structure DownloadEnv where
  runOk : Bool
  walk : List (Except GoErr String)
  title : Except GoErr String

/-- The function `strings.ReplaceAll(s, "\n", "")`. -/
def dropNewlines (s : String) : String := String.mk (s.data.filter (fun c => c != '\n'))

/-- The method `song.download` (lines 27-56). -/
def song.download (s : song) (env : DownloadEnv) : song × Ret :=
  if !env.runOk then (s, .err (.tool "yt-dlp"))
  else
    match s.find env.walk with
    | (s', .err e) => (s', .err e)
    | (s', .panic) => (s', .panic)
    | (s', .ok) =>
      match env.title with
      | .error e => (s', .err e)
      | .ok output =>
        let name := dropNewlines output
        if name ≠ "" then ({ s' with Name := some name }, .ok)
        else ({ s' with Name := some s'.Url }, .ok)

/-- Outcomes of the calls of `convert`: `dca.EncodeFile`, `os.Create`,
`io.Copy` and `os.Remove`. -/
structure ConvertEnv where
  encodeOk : Bool
  createOk : Bool
  copyOk : Bool
  removeOk : Bool

/-- The method `song.convert` (lines 83-119). -/
def song.convert (s : song) (env : ConvertEnv) : song × Ret :=
  match s.FullFileName with
  | none => (s, .panic)
  | some _ =>
    if !env.encodeOk then (s, .err (.tool "dca"))
    else if !env.createOk then (s, .err (.os "create"))
    else if !env.copyOk then (s, .err (.os "copy"))
    else if !env.removeOk then (s, .err (.os "remove"))
    else ({ s with FullFileName := some (s.FileName ++ ".dca") }, .ok)

/-- The table `hextable` of `encoding/hex`. -/
def hexDigit (n : Nat) : Char := "0123456789abcdef".data.getD n '0'

/-- The function `hex.EncodeToString`. -/
def hexEncode (bs : List UInt8) : String :=
  String.mk (bs.flatMap fun b => [hexDigit (b.toNat / 16), hexDigit (b.toNat % 16)])

/-- The expression `hex.EncodeToString([]byte(url))` of line 248. -/
def hexName (url : String) : String := hexEncode (url.data.flatMap String.utf8EncodeChar)

/-- The name of the file that the `yt-dlp` run of `download` writes for a url:
the output template of line 28 is `FileName`, a dot, and the extension that
the tool chooses. -/
def artifactName (url ext : String) : String := hexName url ++ "." ++ ext

/-- The stages of the pipeline. -/
inductive Stage
  | download
  | convert
  | load
deriving DecidableEq, Repr

/-- Everything outside `handlePlay` that one call of it consults: the outcomes
of the three stages, the guild of the channel of the interaction (`none`:
`State.Channel` fails), the voice states of that guild as pairs of user id and
channel id (`none`: `State.Guild` fails), and the id of the requesting user. -/
structure PlayEnv where
  dl : DownloadEnv
  cv : ConvertEnv
  fs : FileSys
  channelGuild : Option String
  voiceStates : Option (List (String × String))
  userID : String

/-- The create-or-append step of `handlePlay` (lines 303-315): the registry
afterwards and `len(currentSongQueue.Songs)` as line 318 reads it. -/
def enqueue (songQueues : List songQueue) (guildID : String) (currentSong : song) :
    List songQueue × Nat :=
  match songQueueByGuildID songQueues guildID with
  | none => (songQueues ++ [{ GuildID := guildID, Songs := [currentSong] }], 1)
  | some currentSongQueue =>
    (setSongs songQueues guildID (currentSongQueue.Songs ++ [currentSong]),
      (currentSongQueue.Songs ++ [currentSong]).length)

/-- What one call of `handlePlay` does up to its call of `playSongQueue`: the
registry afterwards, the stages it ran in order, the text given to the user
(without the text of the error), the arguments of the call of `playSongQueue` if it makes one, and how it ended
(`ok`: it returned or went on into `playSongQueue`). -/
structure PlayResult where
  queues : List songQueue
  stages : List Stage
  response : Option String
  started : Option (String × String)
  ret : Ret
deriving DecidableEq, Repr

/-- The first voice state of the requesting user (the `for` of line 300). -/
def voiceStateOf (userID : String) : List (String × String) → Option (String × String)
  | [] => none
  | vs :: rest => if vs.1 = userID then some vs else voiceStateOf userID rest

/-- The song that `handlePlay` builds from the url (lines 248-253). -/
def newSong (url : String) : song :=
  { FileName := hexName url, Url := url, GuildID := "", Name := none,
    FullFileName := none, Buffer := none }

/-- The function `handlePlay` (lines 248-342). `none` only when the model of
`load` runs out of fuel, which it never does. -/
def handlePlay (songQueues : List songQueue) (env : PlayEnv) (url : String) :
    Option PlayResult :=
  let currentSong := newSong url
  let stop (stages : List Stage) (response : Option String) (ret : Ret) : PlayResult :=
    { queues := songQueues, stages := stages, response := response, started := none,
      ret := ret }
  match currentSong.download env.dl with
  | (_, .err _) => some (stop [.download] (some "could not download song") .ok)
  | (_, .panic) => some (stop [.download] none .panic)
  | (currentSong, .ok) =>
  match currentSong.convert env.cv with
  | (_, .err _) => some (stop [.download, .convert] (some "could not convert song") .ok)
  | (_, .panic) => some (stop [.download, .convert] none .panic)
  | (currentSong, .ok) =>
  match currentSong.load env.fs with
  | none => none
  | some (_, .err _) =>
    some (stop [.download, .convert, .load] (some "could not load song") .ok)
  | some (_, .panic) => some (stop [.download, .convert, .load] none .panic)
  | some (currentSong, .ok) =>
  let stages := [Stage.download, .convert, .load]
  match env.channelGuild with
  | none => some (stop stages none .ok)
  | some guildID =>
  match env.voiceStates with
  | none => some (stop stages none .ok)
  | some voiceStates =>
  match voiceStateOf env.userID voiceStates with
  | none =>
    some (stop stages (some "You must be in a voice channel to use this command!") .ok)
  | some vs =>
    let (queues, len) := enqueue songQueues guildID currentSong
    match currentSong.Name with
    | none =>
      some { queues := queues, stages := stages, response := none, started := none,
             ret := .panic }
    | some name =>
      if len > 1 then
        some { queues := queues, stages := stages, response := some (name ++ " added to queue"),
               started := none, ret := .ok }
      else
        some { queues := queues, stages := stages, response := some ("Playing " ++ name),
               started := some (guildID, vs.2), ret := .ok }

/-! ## Sequences of enqueue and skip steps on one guild -/

/-- One step on the queue of a guild: the create-or-append step of
`handlePlay`, or `handleSkip`. -/
inductive QueueOp
  | enqueue (s : song)
  | skip
deriving DecidableEq, Repr

/-- One step on the registry, with the text `handleSkip` gives. -/
def applyOp (guildID : String) (songQueues : List songQueue) :
    QueueOp → List songQueue × Option String
  | .enqueue s => ((enqueue songQueues guildID s).1, none)
  | .skip => ((handleSkip songQueues guildID).queues, (handleSkip songQueues guildID).response)

/-- A sequence of steps on the registry: the registry afterwards and the texts
of the steps in order. -/
def runOps (guildID : String) : List songQueue → List QueueOp → List songQueue × List (Option String)
  | songQueues, [] => (songQueues, [])
  | songQueues, op :: ops =>
    let r := applyOp guildID songQueues op
    let rs := runOps guildID r.1 ops
    (rs.1, r.2 :: rs.2)

/-- Every skip of the sequence meets a queue that holds a track. -/
def skipsGuarded (guildID : String) : List songQueue → List QueueOp → Prop
  | _, [] => True
  | songQueues, op :: ops =>
    (op = .skip → songsOf songQueues guildID ≠ []) ∧
      skipsGuarded guildID (applyOp guildID songQueues op).1 ops

/-- The abstract FIFO list: enqueue adds at the end, skip removes the element
at index 0 and reports its name. -/
def fifoOp : List song → QueueOp → List song × Option String
  | l, .enqueue s => (l ++ [s], none)
  | [], .skip => ([], none)
  | first :: rest, .skip => (rest, first.Name.map (fun n => n ++ " skipped"))

/-- A sequence of steps on the abstract list. -/
def fifoRun : List song → List QueueOp → List song × List (Option String)
  | l, [] => (l, [])
  | l, op :: ops =>
    let r := fifoOp l op
    let rs := fifoRun r.1 ops
    (rs.1, r.2 :: rs.2)

/-! ## `playSongQueue` (`main.go` 345-402) and the handlers running beside it

The handlers run concurrently. The model interleaves them at the grain of the
statements that read or write `currentSongQueue.Songs`: one step of a loop is
one such statement together with the local computation that follows it. -/

/-- The point at which a call of `playSongQueue` stands in the loop of lines
362-387; the local variables `song`, `currentLength` and the frames that the
`range` of line 370 has not yet reached are part of it. -/
inductive LoopPC
  /-- Line 362: the test `len(currentSongQueue.Songs) > 0`. -/
  | test
  /-- Line 363: `song := currentSongQueue.Songs[0]`. -/
  | fetch
  /-- Lines 364-370: `currentLength := len(...)`, then `*song.Name` and
  `*song.Buffer`. -/
  | measure (song : song)
  /-- Lines 370-371: the next frame, if any, goes to `vc.OpusSend`. -/
  | send (song : song) (currentLength : Nat) (frames : List Frame)
  /-- Lines 374-378: the length is read again after a send. -/
  | reread (song : song) (currentLength : Nat) (frames : List Frame)
  /-- Line 381: `currentLength != len(...)`. -/
  | compare (currentLength : Nat)
  /-- Line 386: `Songs = Songs[1:]`. -/
  | remove
  /-- The loop condition failed: lines 389-401 follow. -/
  | exited
  /-- A runtime panic. -/
  | panicked
deriving DecidableEq, Repr

/-- What can be observed of a run. -/
inductive Event
  /-- The loop sent a frame of the track it is streaming. -/
  | sent (track : song) (frame : Frame)
  /-- Line 386 of the loop removed this element from the front. -/
  | removed (track : song)
  /-- The handler `handleSkip` removed this element from the front. -/
  | skipped (track : song)
  /-- The handler `handlePlay` appended this track. -/
  | appended (track : song)
deriving DecidableEq, Repr

/-- One step of a loop of the guild: the registry, the point reached and the
events of the step. -/
def loopStep (guildID : String) (songQueues : List songQueue) :
    LoopPC → List songQueue × LoopPC × List Event
  | .test =>
    match songQueueByGuildID songQueues guildID with
    | none => (songQueues, .panicked, [])
    | some q => if q.Songs.length > 0 then (songQueues, .fetch, []) else (songQueues, .exited, [])
  | .fetch =>
    match songsOf songQueues guildID with
    | [] => (songQueues, .panicked, [])
    | song :: _ => (songQueues, .measure song, [])
  | .measure song =>
    let currentLength := (songsOf songQueues guildID).length
    match song.Name, song.Buffer with
    | some _, some frames => (songQueues, .send song currentLength frames, [])
    | _, _ => (songQueues, .panicked, [])
  | .send _ currentLength [] => (songQueues, .compare currentLength, [])
  | .send song currentLength (buff :: frames) =>
    (songQueues, .reread song currentLength frames, [.sent song buff])
  | .reread song currentLength frames =>
    let len := (songsOf songQueues guildID).length
    if currentLength > len then (songQueues, .compare currentLength, [])
    else if currentLength < len then (songQueues, .send song len frames, [])
    else (songQueues, .send song currentLength frames, [])
  | .compare currentLength =>
    if currentLength ≠ (songsOf songQueues guildID).length then (songQueues, .test, [])
    else (songQueues, .remove, [])
  | .remove =>
    match songsOf songQueues guildID with
    | [] => (songQueues, .panicked, [])
    | first :: rest => (setSongs songQueues guildID rest, .test, [.removed first])
  | .exited => (songQueues, .exited, [])
  | .panicked => (songQueues, .panicked, [])

/-- The registry, the calls of `playSongQueue` for the guild that have begun,
the events so far, and whether a goroutine has panicked (which ends the
process: no step has an effect afterwards). -/
structure Sys where
  queues : List songQueue
  loops : List LoopPC
  trace : List Event
  crashed : Bool
deriving DecidableEq, Repr

/-- The steps that interleave. -/
inductive Action
  /-- Lines 303-331 of a call of `handlePlay` that has loaded this track. -/
  | play (track : song)
  /-- A call of `handleSkip`. -/
  | skip
  /-- One step of the `i`-th call of `playSongQueue`. -/
  | loop (i : Nat)
deriving DecidableEq, Repr

/-- One step of the system of one guild. `handlePlay` goes on into
`playSongQueue` unless the length it reads after its append exceeds 1. -/
def sysStep (guildID : String) (st : Sys) : Action → Sys
  | .play track =>
    if st.crashed then st
    else
      let r := enqueue st.queues guildID track
      { st with
        queues := r.1
        loops := if r.2 > 1 then st.loops else st.loops ++ [.test]
        trace := st.trace ++ [.appended track] }
  | .skip =>
    if st.crashed then st
    else
      let r := handleSkip st.queues guildID
      { st with
        queues := r.queues
        trace := st.trace ++ (match songsOf st.queues guildID with
          | [] => []
          | first :: _ => [.skipped first])
        crashed := r.ret = .panic }
  | .loop i =>
    if st.crashed then st
    else
      match st.loops.get? i with
      | none => st
      | some pc =>
        let r := loopStep guildID st.queues pc
        { queues := r.1
          loops := st.loops.set i r.2.1
          trace := st.trace ++ r.2.2
          crashed := r.2.1 = .panicked }

/-- A sequence of steps. -/
def sysRun (guildID : String) : Sys → List Action → Sys
  | st, [] => st
  | st, a :: as => sysRun guildID (sysStep guildID st a) as

/-- A call of `playSongQueue` is under way: it has neither left its loop nor
panicked. -/
def LoopPC.active : LoopPC → Bool
  | .exited => false
  | .panicked => false
  | _ => true

/-- The number of calls of `playSongQueue` under way. -/
def activeLoops (st : Sys) : Nat := (st.loops.filter LoopPC.active).length

/-- The state in which a call of `playSongQueue` begins its loop on a registry. -/
def loopStart (songQueues : List songQueue) : Sys :=
  { queues := songQueues, loops := [.test], trace := [], crashed := false }

/-- The frames of a track. -/
def song.frames (s : song) : List Frame := s.Buffer.getD []

/-- A track as `handlePlay` enqueues it: name and frames are set. -/
def song.loaded (s : song) : Bool := s.Name.isSome && s.Buffer.isSome

/-- The events of the loop among the events of a run. -/
def loopEvents : List Event → List Event
  | [] => []
  | .sent t f :: es => .sent t f :: loopEvents es
  | .removed t :: es => .removed t :: loopEvents es
  | _ :: es => loopEvents es

/-- Playing the tracks in order: for each track its frames in order, then its
removal from the front. -/
def playTrace : List song → List Event
  | [] => []
  | t :: ts => t.frames.map (Event.sent t) ++ [Event.removed t] ++ playTrace ts

/-- The tracks that the steps of a run append. -/
def appendedBy : List Action → List song
  | [] => []
  | .play t :: as => t :: appendedBy as
  | _ :: as => appendedBy as

/-- The first loop stands between a frame send and the re-read of the length. -/
def atReread (st : Sys) : Bool :=
  match st.loops.head? with
  | some (.reread _ _ _) => true
  | _ => false

/-- A run without skips in which only the first loop steps and every append
arrives between a frame send and the re-read that follows it. -/
def quietRun (guildID : String) : Sys → List Action → Bool
  | _, [] => true
  | st, a :: as =>
    (match a with
      | .loop i => i == 0
      | .play track => atReread st && track.loaded
      | .skip => false) && quietRun guildID (sysStep guildID st a) as

/-! ## `search` (`main.go` 456-489) -/

/-- The struct `searchResult`. -/
structure searchResult where
  Title : String
  URL : String
  Uploader : String
deriving DecidableEq, Repr

/-- The function `strings.Split(s, "\n")` on the characters of `s`: one more
piece than there are newlines. -/
def splitLines : List Char → List (List Char)
  | [] => [[]]
  | c :: cs =>
    if c = '\n' then [] :: splitLines cs
    else
      match splitLines cs with
      | [] => [[c]]
      | l :: ls => (c :: l) :: ls

/-- The pieces of `strings.Split(output, "\n")` as strings. -/
def linesOf (output : String) : List String := (splitLines output.data).map String.mk

/-- The `for` of lines 475-486 over the lines that are left, with `results` so
far. The decoder stands for `json.Unmarshal` into a fresh `searchResult`. -/
def parseLines (unmarshal : String → Except GoErr searchResult) :
    List String → List searchResult → List searchResult × Option GoErr
  | [], results => (results, none)
  | line :: lines, results =>
    if line = "" then parseLines unmarshal lines results
    else
      match unmarshal line with
      | .error e => ([], some e)
      | .ok result => parseLines unmarshal lines (results ++ [result])

/-- The function `search`, given the outcome of `cmd.Output()`. -/
def search (cmdOutput : Except GoErr String)
    (unmarshal : String → Except GoErr searchResult) : List searchResult × Option GoErr :=
  match cmdOutput with
  | .error e => ([], some e)
  | .ok output => parseLines unmarshal (linesOf output) []

/-- The lines of the output that are not the empty string. -/
def nonBlankLines (output : String) : List String :=
  (linesOf output).filter (fun line => line ≠ "")

/-- After the literal `lit`: the rest of `cs`. -/
def expectLit (lit : String) (cs : List Char) : Option (List Char) :=
  if lit.data.isPrefixOf cs then some (cs.drop lit.length) else none

/-- A small decoder to run `search` on: it accepts exactly the lines that are
an object with the three string fields in the order `fulltitle`, `webpage_url`,
`uploader`, without spaces and without escapes. -/
def demoUnmarshal (line : String) : Except GoErr searchResult :=
  let quote : Char → Bool := fun c => c != '"'
  match expectLit "\x7b\"fulltitle\":\"" line.data with
  | none => .error (.tool "json")
  | some cs1 =>
    match expectLit "\",\"webpage_url\":\"" (cs1.dropWhile quote) with
    | none => .error (.tool "json")
    | some cs2 =>
      match expectLit "\",\"uploader\":\"" (cs2.dropWhile quote) with
      | none => .error (.tool "json")
      | some cs3 =>
        if cs3.dropWhile quote = "\"\x7d".data then
          .ok { Title := String.mk (cs1.takeWhile quote),
                URL := String.mk (cs2.takeWhile quote),
                Uploader := String.mk (cs3.takeWhile quote) }
        else .error (.tool "json")

/-! ## The invariant of a run without skips -/

/-- A queue is registered for the guild. -/
def registered (songQueues : List songQueue) (guildID : String) : Prop :=
  ∃ q, songQueueByGuildID songQueues guildID = some q

/-- What holds at a point of the loop in a run without skips, for the `Songs`
of the guild and the events `part` of the loop since the last removal: the
track being streamed is the front, and `part` is the sends of the frames that
the `range` has passed. -/
def PcOk : LoopPC → List song → List Event → Prop
  | .test, _, part => part = []
  | .fetch, rest, part => part = [] ∧ rest ≠ []
  | .measure s, rest, part => part = [] ∧ rest.head? = some s
  | .send s cur fs, rest, part =>
    rest.head? = some s ∧ cur = rest.length ∧
      ∃ pre, s.frames = pre ++ fs ∧ part = pre.map (Event.sent s)
  | .reread s cur fs, rest, part =>
    rest.head? = some s ∧ cur ≤ rest.length ∧
      ∃ pre, s.frames = pre ++ fs ∧ part = pre.map (Event.sent s)
  | .compare cur, rest, part =>
    cur = rest.length ∧ ∃ s, rest.head? = some s ∧ part = s.frames.map (Event.sent s)
  | .remove, rest, part => ∃ s, rest.head? = some s ∧ part = s.frames.map (Event.sent s)
  | .exited, rest, part => part = [] ∧ rest = []
  | .panicked, _, _ => False

/-- The invariant of a run without skips over the tracks `all` (those of the
start and those appended since): nothing panicked, one loop runs, the tracks
before the queue are played and removed, in order, and the queue is the rest. -/
def QuietInv (guildID : String) (all : List song) (st : Sys) : Prop :=
  st.crashed = false ∧ registered st.queues guildID ∧ (∀ t ∈ all, t.loaded = true) ∧
    ∃ pc played part, st.loops = [pc] ∧ all = played ++ songsOf st.queues guildID ∧
      loopEvents st.trace = playTrace played ++ part ∧
      PcOk pc (songsOf st.queues guildID) part

/-- The steps the loop takes for one track. -/
def trackCost (t : song) : Nat := 6 + 2 * t.frames.length

/-- The steps the loop takes from line 362 for a queue. -/
def queueCost : List song → Nat
  | [] => 1
  | t :: ts => trackCost t + queueCost ts

/-- The steps the loop still takes from a point, for the `Songs` at hand. -/
def loopCost : LoopPC → List song → Nat
  | .test, rest => queueCost rest
  | .fetch, rest => queueCost rest - 1
  | .measure _, rest => queueCost rest - 2
  | .send _ _ fs, rest => 2 * fs.length + 3 + queueCost rest.tail
  | .reread _ _ fs, rest => 2 * fs.length + 4 + queueCost rest.tail
  | .compare _, rest => 2 + queueCost rest.tail
  | .remove, rest => 1 + queueCost rest.tail
  | .exited, _ => 0
  | .panicked, _ => 0

/-- The steps the one loop of a state still takes. -/
def sysCost (guildID : String) (st : Sys) : Nat :=
  match st.loops with
  | [pc] => loopCost pc (songsOf st.queues guildID)
  | _ => 0

/-! ## Concrete inputs for the runs below -/

/-- A song as `handlePlay` holds it when it calls `load`. -/
def demoSong : song :=
  { FileName := "6162", Url := "ab", GuildID := "", Name := some "ab",
    FullFileName := some "6162.dca", Buffer := none }

/-- A file system that holds the given bytes under every name and on which
`Close` and `Remove` succeed. -/
def fileSysOf (bytes : List Byte) : FileSys :=
  { openFile := fun _ => some bytes, closeOk := true, removeOk := true }

/-- A loaded track with one frame. -/
def trackA : song :=
  { FileName := "61", Url := "a", GuildID := "", Name := some "A",
    FullFileName := some "61.dca", Buffer := some [[1]] }

/-- A loaded track with two frames. -/
def trackB : song :=
  { FileName := "62", Url := "b", GuildID := "", Name := some "B",
    FullFileName := some "62.dca", Buffer := some [[2], [3]] }

/-- A loaded track with one frame. -/
def trackC : song :=
  { FileName := "63", Url := "c", GuildID := "", Name := some "C",
    FullFileName := some "63.dca", Buffer := some [[4]] }

/-- The outcomes of a request in which every stage succeeds: the file found
is `6162.opus`, the title is "Song", the container holds two frames, and the
user `u2` is in the voice channel `c2` of guild `g`. -/
def demoEnv : PlayEnv :=
  { dl := { runOk := true, walk := [.ok ".", .ok "6162.opus", .ok "main.go"],
            title := .ok "Song\n" },
    cv := { encodeOk := true, createOk := true, copyOk := true, removeOk := true },
    fs := fileSysOf (encodeFrames [[1, 2], [3]]),
    channelGuild := some "g", voiceStates := some [("u1", "c1"), ("u2", "c2")],
    userID := "u2" }

/-- A loaded track with three frames. -/
def trackT : song :=
  { FileName := "74", Url := "t", GuildID := "", Name := some "T",
    FullFileName := some "74.dca", Buffer := some [[10], [11], [12]] }

/-- No queue registered and no call of `playSongQueue` under way. -/
def idle : Sys := { queues := [], loops := [], trace := [], crashed := false }

/-- The output of a search with three results and one empty line. -/
def demoOutput : String :=
  "\x7b\"fulltitle\":\"One\",\"webpage_url\":\"u1\",\"uploader\":\"p1\"\x7d\n" ++
  "\x7b\"fulltitle\":\"Two\",\"webpage_url\":\"u2\",\"uploader\":\"p2\"\x7d\n" ++
  "\n" ++
  "\x7b\"fulltitle\":\"Three\",\"webpage_url\":\"u3\",\"uploader\":\"p3\"\x7d"

/-! # Theorems -/

/-! ## The read loop of `load` -/

theorem le16_length (n : Nat) : (le16 n).length = 2 := rfl

theorem int16LE_le16 (n : Nat) (h : n ≤ 32767) : int16LE (le16 n) = (n : Int) := by
  have h0 : ((Fin.ofNat (n % 256) : Byte)).val = n % 256 := by
    simp [Fin.ofNat, Nat.mod_mod]
  have h1 : ((Fin.ofNat (n / 256) : Byte)).val = n / 256 := by
    simp only [Fin.ofNat]
    exact Nat.mod_eq_of_lt (by omega)
  simp only [int16LE, le16, List.getD_cons_zero, List.getD_cons_succ, h0, h1]
  have : n % 256 + 256 * (n / 256) = n := Nat.mod_add_div n 256
  rw [this]
  simp only [ite_eq_left_iff]
  omega

theorem readFull_exact (p rest : List Byte) :
    readFull p.length (p ++ rest) = .ok (p, rest) := by
  unfold readFull
  by_cases hp : p.length = 0
  · have : p = [] := List.length_eq_zero.mp hp
    subst this
    simp
  · have hne : (p ++ rest).length ≠ 0 := by
      rw [List.length_append]; omega
    have hlt : ¬ (p ++ rest).length < p.length := by simp [List.length_append]
    simp [hp, hne, hlt]

theorem readFull_header (n : Nat) (rest : List Byte) :
    readFull 2 (le16 n ++ rest) = .ok (le16 n, rest) :=
  readFull_exact (le16 n) rest

theorem readFrames_nil (fuel : Nat) (buffer : List Frame) :
    readFrames (fuel + 1) [] buffer = some (.done buffer) := by
  simp [readFrames, readFull]

theorem readFrames_record (fuel : Nat) (p : Frame) (rest : List Byte) (buffer : List Frame)
    (hp : p.length ≤ 32767) :
    readFrames (fuel + 1) (encodeFrame p ++ rest) buffer
      = readFrames fuel rest (buffer ++ [p]) := by
  have hhdr : readFull 2 (le16 p.length ++ (p ++ rest)) = .ok (le16 p.length, p ++ rest) :=
    readFull_header _ _
  have hneg : ¬ ((p.length : Int) < 0) := by omega
  simp only [readFrames, encodeFrame, List.append_assoc, hhdr, int16LE_le16 _ hp, hneg,
    if_false, Int.toNat_ofNat, readFull_exact]

theorem readFrames_encode (frames : List Frame) (hlen : ∀ p ∈ frames, p.length ≤ 32767) :
    ∀ (fuel : Nat) (rest : List Byte) (buffer : List Frame),
      readFrames (fuel + frames.length) (encodeFrames frames ++ rest) buffer
        = readFrames fuel rest (buffer ++ frames) := by
  induction frames with
  | nil => intro fuel rest buffer; simp [encodeFrames]
  | cons p ps ih =>
    intro fuel rest buffer
    have hp : p.length ≤ 32767 := hlen p (List.mem_cons_self _ _)
    have hps : ∀ q ∈ ps, q.length ≤ 32767 := fun q hq => hlen q (List.mem_cons_of_mem _ hq)
    have e : fuel + (p :: ps).length = (fuel + ps.length) + 1 := by simp; omega
    rw [e]
    simp only [encodeFrames, List.append_assoc]
    rw [readFrames_record _ _ _ _ hp, ih hps]
    simp

theorem encodeFrames_length (frames : List Frame) :
    frames.length ≤ (encodeFrames frames).length := by
  induction frames with
  | nil => simp [encodeFrames]
  | cons p ps ih => simp [encodeFrames, encodeFrame, le16, List.length_append]; omega

/-- The read loop on a complete container: with the fuel `load` gives it, it
ends at the clean end of file with exactly the encoded frames. -/
theorem readFrames_complete (frames : List Frame) (hlen : ∀ p ∈ frames, p.length ≤ 32767) :
    readFrames ((encodeFrames frames).length + 1) (encodeFrames frames) []
      = some (.done frames) := by
  have hle := encodeFrames_length frames
  obtain ⟨k, hk⟩ : ∃ k, (encodeFrames frames).length + 1 = (k + 1) + frames.length :=
    ⟨(encodeFrames frames).length - frames.length, by omega⟩
  have := readFrames_encode frames hlen (k + 1) [] []
  rw [List.append_nil] at this
  rw [hk, this, readFrames_nil]
  simp

/-- A record whose positive length prefix is followed by too few bytes makes the
read loop fail: `io.EOF` when nothing follows, `io.ErrUnexpectedEOF` otherwise. -/
theorem readFrames_truncated (fuel n : Nat) (rest : List Byte) (buffer : List Frame)
    (hpos : 0 < n) (hmax : n ≤ 32767) (hshort : rest.length < n) :
    ∃ e, readFrames (fuel + 1) (le16 n ++ rest) buffer = some (.failed e) := by
  have hneg : ¬ ((n : Int) < 0) := by omega
  have hn0 : n ≠ 0 := by omega
  have hhdr := readFull_header n rest
  obtain ⟨e, he⟩ : ∃ e, readFull n rest = .error e := by
    unfold readFull
    by_cases hr : rest.length = 0 <;> simp [hn0, hr, hshort]
  refine ⟨e, ?_⟩
  simp only [readFrames, hhdr, int16LE_le16 _ hmax, hneg, if_false, Int.toNat_ofNat, he]

theorem readFrames_encode_truncated (frames : List Frame)
    (hlen : ∀ p ∈ frames, p.length ≤ 32767) (n : Nat) (rest : List Byte)
    (hpos : 0 < n) (hmax : n ≤ 32767) (hshort : rest.length < n) :
    ∃ e, readFrames ((encodeFrames frames ++ (le16 n ++ rest)).length + 1)
        (encodeFrames frames ++ (le16 n ++ rest)) [] = some (.failed e) := by
  have hle := encodeFrames_length frames
  obtain ⟨k, hk⟩ : ∃ k, (encodeFrames frames ++ (le16 n ++ rest)).length + 1
      = (k + 1) + frames.length :=
    ⟨(encodeFrames frames ++ (le16 n ++ rest)).length - frames.length, by
      rw [List.length_append] at *; omega⟩
  rw [hk, readFrames_encode frames hlen]
  exact readFrames_truncated k n rest _ hpos hmax hshort

theorem readFull_ok_length (n : Nat) (file a b : List Byte)
    (h : readFull n file = .ok (a, b)) : b.length + n = file.length := by
  unfold readFull at h
  by_cases h0 : n = 0
  · simp [h0] at h; simp [h0, h.2]
  · by_cases h1 : file.length = 0
    · simp [h0, h1] at h
    · by_cases h2 : file.length < n
      · simp [h0, h1, h2] at h
      · simp [h0, h1, h2] at h
        rw [← h.2, List.length_drop]; omega

/-- The read loop ends within the fuel that `load` gives it. -/
theorem readFrames_total (fuel : Nat) :
    ∀ (file : List Byte) (buffer : List Frame), file.length < fuel →
      ∃ r, readFrames fuel file buffer = some r := by
  induction fuel with
  | zero => intro file buffer h; omega
  | succ k ih =>
    intro file buffer h
    unfold readFrames
    cases h2 : readFull 2 file with
    | error e => cases e <;> exact ⟨_, rfl⟩
    | ok pr =>
      obtain ⟨hdr, rest⟩ := pr
      have hl := readFull_ok_length 2 file hdr rest h2
      simp only
      by_cases hneg : int16LE hdr < 0
      · simp [hneg]
      · simp only [hneg, if_false]
        cases h3 : readFull (int16LE hdr).toNat rest with
        | error e => exact ⟨_, rfl⟩
        | ok pr2 =>
          obtain ⟨inBuf, rest2⟩ := pr2
          have hl2 := readFull_ok_length _ rest inBuf rest2 h3
          exact ih rest2 _ (by omega)

/-- The method `load` always ends: with nil, an error or a panic. -/
theorem load_total (s : song) (fs : FileSys) : ∃ s' ret, s.load fs = some (s', ret) := by
  cases hn : s.FullFileName with
  | none => exact ⟨s, .panic, by simp only [song.load, hn]⟩
  | some name =>
    cases ho : fs.openFile name with
    | none => exact ⟨s, .err (.os "open"), by simp only [song.load, hn, ho]⟩
    | some bytes =>
      obtain ⟨r, hr⟩ := readFrames_total (bytes.length + 1) bytes [] (by omega)
      cases r with
      | done buffer =>
        cases hc : fs.closeOk <;> cases hrm : fs.removeOk <;>
          simp [song.load, hn, ho, hr, hc, hrm]
      | failed e => exact ⟨s, .err e, by simp only [song.load, hn, ho, hr]⟩
      | panic => exact ⟨s, .panic, by simp only [song.load, hn, ho, hr]⟩

/-- When `load` returns nil it has set `Buffer`. -/
theorem load_ok_buffer (s s' : song) (fs : FileSys) (h : s.load fs = some (s', .ok)) :
    s'.Buffer.isSome = true := by
  unfold song.load at h
  cases hn : s.FullFileName with
  | none => simp [hn] at h
  | some name =>
    cases ho : fs.openFile name with
    | none => simp [hn, ho] at h
    | some bytes =>
      cases hr : readFrames (bytes.length + 1) bytes [] with
      | none => simp [hn, ho, hr] at h
      | some r =>
        cases r with
        | done buffer =>
          cases hc : fs.closeOk <;> cases hrm : fs.removeOk <;>
            simp [hn, ho, hr, hc, hrm] at h
          rw [← h]; rfl
        | failed e => simp [hn, ho, hr] at h
        | panic => simp [hn, ho, hr] at h

/-! ## The registry -/

theorem songQueueByGuildID_guild (qs : List songQueue) (g : String) (q : songQueue)
    (h : songQueueByGuildID qs g = some q) : q.GuildID = g := by
  induction qs with
  | nil => simp [songQueueByGuildID] at h
  | cons a as ih =>
    unfold songQueueByGuildID at h
    by_cases ha : a.GuildID = g
    · simp [ha] at h; rw [← h]; exact ha
    · simp [ha] at h; exact ih h

theorem songsOf_setSongs (qs : List songQueue) (g : String) (q : songQueue) (l : List song)
    (h : songQueueByGuildID qs g = some q) : songsOf (setSongs qs g l) g = l := by
  induction qs with
  | nil => simp [songQueueByGuildID] at h
  | cons a as ih =>
    unfold songQueueByGuildID at h
    by_cases ha : a.GuildID = g
    · simp [setSongs, songsOf, songQueueByGuildID, ha]
    · simp only [ha, if_false] at h
      have := ih h
      simp only [songsOf] at this
      simp [setSongs, songsOf, songQueueByGuildID, ha, this]

theorem songQueueByGuildID_append_none (qs : List songQueue) (g : String) (q : songQueue)
    (h : songQueueByGuildID qs g = none) :
    songQueueByGuildID (qs ++ [q]) g = if q.GuildID = g then some q else none := by
  induction qs with
  | nil => simp [songQueueByGuildID]
  | cons a as ih =>
    unfold songQueueByGuildID at h
    by_cases ha : a.GuildID = g
    · simp [ha] at h
    · simp only [ha, if_false] at h
      simp [songQueueByGuildID, ha, ih h]

/-- The create-or-append step puts the song at the end of the guild's list. -/
theorem songsOf_enqueue (qs : List songQueue) (g : String) (s : song) :
    songsOf (enqueue qs g s).1 g = songsOf qs g ++ [s] := by
  unfold enqueue
  cases h : songQueueByGuildID qs g with
  | none =>
    simp only [songsOf, h, songQueueByGuildID_append_none qs g _ h]
    simp
  | some q =>
    simp only [songsOf_setSongs qs g q _ h]
    simp [songsOf, h]

/-- The count that line 318 reads is the length of the guild's list. -/
theorem enqueue_len (qs : List songQueue) (g : String) (s : song) :
    (enqueue qs g s).2 = (songsOf qs g).length + 1 := by
  unfold enqueue
  cases h : songQueueByGuildID qs g with
  | none => simp [songsOf, h]
  | some q => simp [songsOf, h]

/-- The skip of a queue that holds a track removes the element at index 0. -/
theorem handleSkip_cons (qs : List songQueue) (g : String) (first : song) (rest : List song)
    (h : songsOf qs g = first :: rest) :
    songsOf (handleSkip qs g).queues g = rest
      ∧ (handleSkip qs g).response = first.Name.map (fun n => n ++ " skipped") := by
  unfold songsOf at h
  cases hq : songQueueByGuildID qs g with
  | none => simp [hq] at h
  | some q =>
    simp only [hq] at h
    unfold handleSkip
    simp only [hq, h]
    cases hn : first.Name with
    | none => exact ⟨songsOf_setSongs qs g q rest hq, rfl⟩
    | some n => exact ⟨songsOf_setSongs qs g q rest hq, rfl⟩

theorem runOps_refines_fifo (g : String) (ops : List QueueOp) :
    ∀ qs : List songQueue, skipsGuarded g qs ops →
      songsOf (runOps g qs ops).1 g = (fifoRun (songsOf qs g) ops).1
        ∧ (runOps g qs ops).2 = (fifoRun (songsOf qs g) ops).2 := by
  induction ops with
  | nil => intro qs _; exact ⟨rfl, rfl⟩
  | cons op ops ih =>
    intro qs hg
    obtain ⟨hskip, hrest⟩ := hg
    have hstep : songsOf (applyOp g qs op).1 g = (fifoOp (songsOf qs g) op).1
        ∧ (applyOp g qs op).2 = (fifoOp (songsOf qs g) op).2 := by
      cases op with
      | enqueue s =>
        refine ⟨?_, ?_⟩
        · simpa [applyOp, fifoOp] using songsOf_enqueue qs g s
        · simp [applyOp, fifoOp]
      | skip =>
        cases hl : songsOf qs g with
        | nil => exact absurd hl (hskip rfl)
        | cons first rest => simpa [applyOp, fifoOp] using handleSkip_cons qs g first rest hl
    have := ih _ hrest
    simp only [runOps, fifoRun]
    rw [this.1, this.2, hstep.1, hstep.2]
    exact ⟨rfl, rfl⟩

theorem fifoRun_enqueues (songs : List song) :
    ∀ l : List song, (fifoRun l (songs.map QueueOp.enqueue)).1 = l ++ songs := by
  induction songs with
  | nil => intro l; simp [fifoRun]
  | cons s ss ih => intro l; simp [fifoRun, fifoOp, ih]

theorem skipsGuarded_enqueues (g : String) (songs : List song) :
    ∀ qs : List songQueue, skipsGuarded g qs (songs.map QueueOp.enqueue) := by
  induction songs with
  | nil => intro qs; exact trivial
  | cons s ss ih =>
    intro qs
    exact ⟨fun h => QueueOp.noConfusion h, ih _⟩

/-! ## C1, C9: the frame container and `song.load` -/

/-- `load` on a complete container, with `Close` and `Remove` succeeding. -/
theorem load_complete (s : song) (fs : FileSys) (name : String) (frames : List Frame)
    (hname : s.FullFileName = some name)
    (hopen : fs.openFile name = some (encodeFrames frames))
    (hclose : fs.closeOk = true) (hremove : fs.removeOk = true)
    (hlen : ∀ p ∈ frames, p.length ≤ 32767) :
    s.load fs = some ({ s with Buffer := some frames }, .ok) := by
  simp [song.load, hname, hopen, readFrames_complete frames hlen, hclose, hremove]

/-- C1: for every sequence of frame payloads of at most 32767 bytes each,
`song.load` over the container holding their length-prefixed records returns
nil and sets `Buffer` to exactly that sequence; every other field of the song
is unchanged. -/
theorem load_roundtrip (s : song) (fs : FileSys) (name : String) (frames : List Frame)
    (hname : s.FullFileName = some name)
    (hopen : fs.openFile name = some (encodeFrames frames))
    (hclose : fs.closeOk = true) (hremove : fs.removeOk = true)
    (hlen : ∀ p ∈ frames, p.length ≤ 32767) :
    s.load fs = some ({ s with Buffer := some frames }, .ok) :=
  load_complete s fs name frames hname hopen hclose hremove hlen

/-- C1 at three frames, one of them of length zero, and at the empty sequence. -/
theorem load_roundtrip_witness :
    demoSong.load (fileSysOf (encodeFrames [[1, 2, 3], [], [255]]))
        = some ({ demoSong with Buffer := some [[1, 2, 3], [], [255]] }, .ok)
      ∧ demoSong.load (fileSysOf (encodeFrames []))
        = some ({ demoSong with Buffer := some [] }, .ok) :=
  ⟨load_roundtrip demoSong _ "6162.dca" [[1, 2, 3], [], [255]] rfl rfl rfl rfl (by decide),
   load_roundtrip demoSong _ "6162.dca" [] rfl rfl rfl rfl (by decide)⟩

/-- C9: when the records of some frames are followed by a length prefix `n > 0`
and fewer than `n` further bytes, `song.load` returns an error and leaves the
song, so its `Buffer`, as it was; on a file that ends at a record boundary it
returns nil (given that `Close` and `Remove` succeed). -/
theorem load_truncated_is_error (s : song) (fs : FileSys) (name : String)
    (frames : List Frame) (hname : s.FullFileName = some name)
    (hlen : ∀ p ∈ frames, p.length ≤ 32767) :
    (∀ (n : Nat) (rest : List Byte), 0 < n → n ≤ 32767 → rest.length < n →
        fs.openFile name = some (encodeFrames frames ++ (le16 n ++ rest)) →
        ∃ e, s.load fs = some (s, .err e))
      ∧ (fs.openFile name = some (encodeFrames frames) →
          fs.closeOk = true → fs.removeOk = true →
          ∃ s', s.load fs = some (s', .ok)) := by
  refine ⟨?_, ?_⟩
  · intro n rest hpos hmax hshort hopen
    obtain ⟨e, he⟩ := readFrames_encode_truncated frames hlen n rest hpos hmax hshort
    exact ⟨e, by simp only [song.load, hname, hopen, he]⟩
  · intro hopen hclose hremove
    exact ⟨{ s with Buffer := some frames },
      load_complete s fs name frames hname hopen hclose hremove hlen⟩

/-- C9 at the record `[1, 2]` followed by the prefix 3 and one byte, and at the
record `[1, 2]` alone. -/
theorem load_truncated_is_error_witness :
    (∃ e, demoSong.load (fileSysOf (encodeFrames [[1, 2]] ++ (le16 3 ++ [7])))
        = some (demoSong, .err e))
      ∧ (∃ s', demoSong.load (fileSysOf (encodeFrames [[1, 2]])) = some (s', .ok)) :=
  ⟨(load_truncated_is_error demoSong (fileSysOf (encodeFrames [[1, 2]] ++ (le16 3 ++ [7])))
      "6162.dca" [[1, 2]] rfl (by decide)).1 3 [7] (by decide) (by decide) (by decide) rfl,
   (load_truncated_is_error demoSong (fileSysOf (encodeFrames [[1, 2]]))
      "6162.dca" [[1, 2]] rfl (by decide)).2 rfl rfl rfl⟩

/-! ## C2, C3: `handleSkip` and the queue as a list -/

/-- C2: with no queue registered `handleSkip` answers "No songs in queue" and
leaves the registry as it is, but on a registered queue whose `Songs` is empty
(here: the registry after track A was enqueued and skipped) it panics on
`Songs[0]` and gives no answer. -/
theorem handleSkip_registered_empty_panics :
    handleSkip [] "g"
        = { queues := [], response := some "No songs in queue", ret := .ok }
      ∧ (handleSkip (enqueue [] "g" trackA).1 "g").queues = [{ GuildID := "g", Songs := [] }]
      ∧ handleSkip [{ GuildID := "g", Songs := [] }] "g"
        = { queues := [{ GuildID := "g", Songs := [] }], response := none, ret := .panic } := by
  decide

/-- C3: from the empty registry, after every sequence of enqueue and skip steps
on one guild in which each skip meets a non-empty queue, the guild's `Songs` is
the list of the abstract FIFO model and every skip reported the name of the
element it removed from index 0; with enqueues only, `Songs` is the enqueued
tracks in call order. -/
theorem queue_is_fifo (g : String) (ops : List QueueOp) (hg : skipsGuarded g [] ops) :
    songsOf (runOps g [] ops).1 g = (fifoRun [] ops).1
      ∧ (runOps g [] ops).2 = (fifoRun [] ops).2
      ∧ (∀ songs : List song, ops = songs.map QueueOp.enqueue →
          songsOf (runOps g [] ops).1 g = songs) := by
  have h := runOps_refines_fifo g ops [] hg
  refine ⟨h.1, h.2, ?_⟩
  intro songs hops
  rw [h.1, hops, fifoRun_enqueues]
  rfl

/-- C3 at enqueue A, enqueue B, skip, enqueue C: the list is B, C and the skip
reported A. -/
theorem queue_is_fifo_witness :
    songsOf (runOps "g" [] [.enqueue trackA, .enqueue trackB, .skip, .enqueue trackC]).1 "g"
        = [trackB, trackC]
      ∧ (runOps "g" [] [.enqueue trackA, .enqueue trackB, .skip, .enqueue trackC]).2
        = [none, none, some "A skipped", none] := by
  have hg : skipsGuarded "g" [] [.enqueue trackA, .enqueue trackB, .skip, .enqueue trackC] := by
    refine ⟨fun h => QueueOp.noConfusion h, fun h => QueueOp.noConfusion h, fun _ => ?_,
      fun h => QueueOp.noConfusion h, trivial⟩
    decide
  have h := queue_is_fifo "g" _ hg
  exact ⟨h.1.trans (by decide), h.2.1.trans (by decide)⟩

/-! ## C8: `handlePlay` enqueues only loaded tracks -/

/-- C8: every call of `handlePlay` ends, and when download, convert or load
does not return nil the registry is unchanged, `playSongQueue` is not called
and the stages run are exactly those up to the failed one; the same holds for
the registry and the loop when the user has no voice state in the guild; and
whenever the registry changed or a loop was started, all three stages ran,
`load` returned nil and the appended track has its `Buffer` set. -/
theorem handlePlay_enqueues_only_loaded (qs : List songQueue) (env : PlayEnv)
    (url : String) :
    ∃ r, handlePlay qs env url = some r ∧
      (((newSong url).download env.dl).2 ≠ .ok →
        r.queues = qs ∧ r.started = none ∧ r.stages = [.download]) ∧
      (∀ s1, (newSong url).download env.dl = (s1, .ok) → (s1.convert env.cv).2 ≠ .ok →
        r.queues = qs ∧ r.started = none ∧ r.stages = [.download, .convert]) ∧
      (∀ s1 s2 s3 ret, (newSong url).download env.dl = (s1, .ok) →
        s1.convert env.cv = (s2, .ok) → s2.load env.fs = some (s3, ret) → ret ≠ .ok →
        r.queues = qs ∧ r.started = none ∧ r.stages = [.download, .convert, .load]) ∧
      ((∀ vss, env.voiceStates = some vss → voiceStateOf env.userID vss = none) →
        r.queues = qs ∧ r.started = none) ∧
      ((r.queues ≠ qs ∨ r.started ≠ none) →
        ∃ s1 s2 s3 g, (newSong url).download env.dl = (s1, .ok) ∧
          s1.convert env.cv = (s2, .ok) ∧ s2.load env.fs = some (s3, .ok) ∧
          s3.Buffer.isSome = true ∧ r.queues = (enqueue qs g s3).1 ∧
          r.stages = [.download, .convert, .load]) := by
  cases hd : (newSong url).download env.dl with
  | mk s1 r1 =>
  cases r1 with
  | err e => exact ⟨_, by (simp only [handlePlay, hd] ; rfl), by simp⟩
  | panic => exact ⟨_, by (simp only [handlePlay, hd] ; rfl), by simp⟩
  | ok =>
  cases hc : s1.convert env.cv with
  | mk s2 r2 =>
  cases r2 with
  | err e =>
    refine ⟨_, by (simp only [handlePlay, hd, hc] ; rfl), by simp, by simp, ?_, by simp,
      by simp⟩
    intro a b c d e f
    have ea : s1 = a := congrArg Prod.fst e
    rw [← ea, hc] at f
    exact absurd (congrArg Prod.snd f) (by simp)
  | panic =>
    refine ⟨_, by (simp only [handlePlay, hd, hc] ; rfl), by simp, by simp, ?_, by simp,
      by simp⟩
    intro a b c d e f
    have ea : s1 = a := congrArg Prod.fst e
    rw [← ea, hc] at f
    exact absurd (congrArg Prod.snd f) (by simp)
  | ok =>
  obtain ⟨s3, r3, hl⟩ := load_total s2 env.fs
  cases r3 with
  | err e => exact ⟨_, by (simp only [handlePlay, hd, hc, hl] ; rfl), by simp [hc, hl]⟩
  | panic => exact ⟨_, by (simp only [handlePlay, hd, hc, hl] ; rfl), by simp [hc, hl]⟩
  | ok =>
  have hb := load_ok_buffer s2 s3 env.fs hl
  have hdone : ∀ r : PlayResult, r.stages = [.download, .convert, .load] →
      ∀ a b c ret, (s1, Ret.ok) = (a, Ret.ok) → a.convert env.cv = (b, .ok) →
        b.load env.fs = some (c, ret) → ret ≠ .ok →
        r.queues = qs ∧ r.started = none ∧ r.stages = [.download, .convert, .load] := by
    intro r _ a b c ret e f h1 h2
    have ea : s1 = a := congrArg Prod.fst e
    rw [← ea, hc] at f
    have eb : s2 = b := congrArg Prod.fst f
    rw [← eb, hl] at h1
    have : Ret.ok = ret := congrArg Prod.snd (Option.some.inj h1)
    exact absurd this.symm h2
  cases hg : env.channelGuild with
  | none => exact ⟨_, by (simp only [handlePlay, hd, hc, hl, hg] ; rfl), by simp [hc, hl]⟩
  | some g =>
  cases hv : env.voiceStates with
  | none => exact ⟨_, by (simp only [handlePlay, hd, hc, hl, hg, hv] ; rfl), by simp [hc, hl]⟩
  | some vss =>
  cases hu : voiceStateOf env.userID vss with
  | none => exact ⟨_, by (simp only [handlePlay, hd, hc, hl, hg, hv, hu] ; rfl), by simp [hc, hl]⟩
  | some vs =>
  cases hn : s3.Name with
  | none =>
    exact ⟨_, by (simp only [handlePlay, hd, hc, hl, hg, hv, hu, hn] ; rfl), by simp, by simp [hc],
      hdone _ rfl, by simp [hu], fun _ => ⟨s1, s2, s3, g, rfl, hc, hl, hb, rfl, rfl⟩⟩
  | some name =>
    by_cases hlen : (enqueue qs g s3).2 > 1
    · exact ⟨_, by (simp only [handlePlay, hd, hc, hl, hg, hv, hu, hn, hlen, if_true] ; rfl),
        by simp, by simp [hc],
      hdone _ rfl, by simp [hu], fun _ => ⟨s1, s2, s3, g, rfl, hc, hl, hb, rfl, rfl⟩⟩
    · exact ⟨_, by (simp only [handlePlay, hd, hc, hl, hg, hv, hu, hn, hlen, if_false] ; rfl),
        by simp, by simp [hc],
      hdone _ rfl, by simp [hu], fun _ => ⟨s1, s2, s3, g, rfl, hc, hl, hb, rfl, rfl⟩⟩

/-- The function `handlePlay` on a request that succeeds, and on the same
request from a user without voice state. -/
theorem handlePlay_demo :
    handlePlay [] demoEnv "ab"
        = some { queues := [{ GuildID := "g", Songs := [
                   { FileName := "6162", Url := "ab", GuildID := "", Name := some "Song",
                     FullFileName := some "6162.dca", Buffer := some [[1, 2], [3]] }] }],
                 stages := [.download, .convert, .load],
                 response := some "Playing Song", started := some ("g", "c2"), ret := .ok }
      ∧ handlePlay [] { demoEnv with userID := "u3" } "ab"
        = some { queues := [], stages := [.download, .convert, .load],
                 response := some "You must be in a voice channel to use this command!",
                 started := none, ret := .ok } := by
  decide

/-! ## C4: playback without skips -/

theorem registered_songs (qs : List songQueue) (g : String) (q : songQueue)
    (h : songQueueByGuildID qs g = some q) : q.Songs = songsOf qs g := by
  simp [songsOf, h]

theorem registered_setSongs (qs : List songQueue) (g : String) (l : List song)
    (h : registered qs g) : registered (setSongs qs g l) g := by
  obtain ⟨q, hq⟩ := h
  induction qs with
  | nil => simp [songQueueByGuildID] at hq
  | cons a as ih =>
    unfold songQueueByGuildID at hq
    by_cases ha : a.GuildID = g
    · exact ⟨{ a with Songs := l }, by simp [setSongs, songQueueByGuildID, ha]⟩
    · simp only [ha, if_false] at hq
      obtain ⟨q', hq'⟩ := ih hq
      exact ⟨q', by simp [setSongs, songQueueByGuildID, ha, hq']⟩

theorem registered_enqueue (qs : List songQueue) (g : String) (t : song) :
    registered (enqueue qs g t).1 g := by
  unfold enqueue
  cases h : songQueueByGuildID qs g with
  | none =>
    exact ⟨{ GuildID := g, Songs := [t] },
      by simp only [songQueueByGuildID_append_none qs g _ h, if_true]⟩
  | some q => exact registered_setSongs qs g _ ⟨q, h⟩

theorem loopEvents_append (a b : List Event) :
    loopEvents (a ++ b) = loopEvents a ++ loopEvents b := by
  induction a with
  | nil => rfl
  | cons e es ih => cases e <;> simp [loopEvents, ih]

theorem playTrace_append (a b : List song) :
    playTrace (a ++ b) = playTrace a ++ playTrace b := by
  induction a with
  | nil => rfl
  | cons t ts ih => simp [playTrace, ih]

theorem queueCost_pos (l : List song) : 1 ≤ queueCost l := by
  cases l with
  | nil => simp [queueCost]
  | cons t ts => simp [queueCost, trackCost]; omega

/-- One step of the loop from a point at which the invariant holds: it does
not panic, the invariant holds again, and unless the loop has left, the step
count has gone down. -/
theorem loopStep_quiet (g : String) (all : List song) (qs : List songQueue) (pc : LoopPC)
    (played : List song) (part : List Event)
    (hreg : registered qs g) (hload : ∀ t ∈ all, t.loaded = true)
    (hall : all = played ++ songsOf qs g) (hpc : PcOk pc (songsOf qs g) part) :
    registered (loopStep g qs pc).1 g ∧ (loopStep g qs pc).2.1 ≠ .panicked ∧
      (∃ played' part', all = played' ++ songsOf (loopStep g qs pc).1 g ∧
        playTrace played ++ part ++ loopEvents (loopStep g qs pc).2.2
          = playTrace played' ++ part' ∧
        PcOk (loopStep g qs pc).2.1 (songsOf (loopStep g qs pc).1 g) part') ∧
      (pc = .exited ∨ loopCost (loopStep g qs pc).2.1 (songsOf (loopStep g qs pc).1 g)
        < loopCost pc (songsOf qs g)) := by
  obtain ⟨q, hq⟩ := hreg
  have hqs : q.Songs = songsOf qs g := registered_songs qs g q hq
  cases pc with
  | test =>
    simp only [PcOk] at hpc
    subst hpc
    by_cases hlen : q.Songs.length > 0
    · have hne : songsOf qs g ≠ [] := by
        rw [← hqs]; intro h; rw [h] at hlen; simp at hlen
      have hc := queueCost_pos (songsOf qs g)
      simp only [loopStep, hq, hlen, if_true]
      exact ⟨⟨q, hq⟩, by simp, ⟨played, [], hall, by simp [loopEvents], ⟨rfl, hne⟩⟩,
        Or.inr (by simp only [loopCost]; omega)⟩
    · have he : songsOf qs g = [] := by
        rw [← hqs]; exact List.length_eq_zero.mp (by omega)
      simp only [loopStep, hq, hlen, if_false]
      exact ⟨⟨q, hq⟩, by simp, ⟨played, [], hall, by simp [loopEvents], ⟨rfl, he⟩⟩,
        Or.inr (by simp [loopCost, he, queueCost])⟩
  | fetch =>
    simp only [PcOk] at hpc
    obtain ⟨rfl, hne⟩ := hpc
    cases hs : songsOf qs g with
    | nil => exact absurd hs hne
    | cons s tail =>
      simp only [loopStep, hs]
      refine ⟨⟨q, hq⟩, by simp, ⟨played, [], by rw [hall, hs], by simp [loopEvents],
        ⟨rfl, rfl⟩⟩, Or.inr ?_⟩
      simp only [loopCost, queueCost, trackCost]; omega
  | measure s =>
    simp only [PcOk] at hpc
    obtain ⟨rfl, hhead⟩ := hpc
    cases hs : songsOf qs g with
    | nil => rw [hs] at hhead; simp at hhead
    | cons s' tail =>
      rw [hs] at hhead
      have hss : s' = s := by simpa using hhead
      subst hss
      have hl : s'.loaded = true := hload s' (by rw [hall, hs]; simp)
      obtain ⟨hname, hbuf⟩ : s'.Name.isSome = true ∧ s'.Buffer.isSome = true := by
        simpa [song.loaded] using hl
      obtain ⟨n, hn⟩ := Option.isSome_iff_exists.mp hname
      obtain ⟨fr, hfr⟩ := Option.isSome_iff_exists.mp hbuf
      have hframes : s'.frames = fr := by simp [song.frames, hfr]
      simp only [loopStep, hn, hfr, hs]
      refine ⟨⟨q, hq⟩, by simp, ⟨played, [], by rw [hall, hs], by simp [loopEvents],
        ⟨rfl, rfl, [], by simp [hframes], rfl⟩⟩, Or.inr ?_⟩
      simp only [loopCost, queueCost, trackCost, hframes, List.tail_cons]; omega
  | send s cur fs =>
    simp only [PcOk] at hpc
    obtain ⟨hhead, hcur, pre, hpre, rfl⟩ := hpc
    cases fs with
    | nil =>
      simp only [loopStep]
      refine ⟨⟨q, hq⟩, by simp, ⟨played, s.frames.map (Event.sent s), hall,
        by simp [loopEvents, hpre], ⟨hcur, s, hhead, rfl⟩⟩, Or.inr ?_⟩
      simp only [loopCost, List.length_nil]; omega
    | cons f fs =>
      simp only [loopStep]
      refine ⟨⟨q, hq⟩, by simp, ⟨played, (pre ++ [f]).map (Event.sent s), hall,
        by simp [loopEvents], ⟨hhead, by omega, pre ++ [f], by rw [hpre]; simp, rfl⟩⟩,
        Or.inr ?_⟩
      simp only [loopCost, List.length_cons]; omega
  | reread s cur fs =>
    simp only [PcOk] at hpc
    obtain ⟨hhead, hcur, pre, hpre, rfl⟩ := hpc
    have hgt : ¬ cur > (songsOf qs g).length := by omega
    by_cases hlt : cur < (songsOf qs g).length
    · simp only [loopStep, hgt, hlt, if_true, if_false]
      refine ⟨⟨q, hq⟩, by simp, ⟨played, _, hall, by simp [loopEvents],
        ⟨hhead, rfl, pre, hpre, rfl⟩⟩, Or.inr ?_⟩
      simp only [loopCost]; omega
    · simp only [loopStep, hgt, hlt, if_false]
      refine ⟨⟨q, hq⟩, by simp, ⟨played, _, hall, by simp [loopEvents],
        ⟨hhead, by omega, pre, hpre, rfl⟩⟩, Or.inr ?_⟩
      simp only [loopCost]; omega
  | compare cur =>
    simp only [PcOk] at hpc
    obtain ⟨hcur, s, hhead, rfl⟩ := hpc
    have hne : ¬ cur ≠ (songsOf qs g).length := by simp [hcur]
    simp only [loopStep, hne, if_false]
    refine ⟨⟨q, hq⟩, by simp, ⟨played, _, hall, by simp [loopEvents],
      ⟨s, hhead, rfl⟩⟩, Or.inr ?_⟩
    simp only [loopCost]; omega
  | remove =>
    simp only [PcOk] at hpc
    obtain ⟨s, hhead, rfl⟩ := hpc
    cases hs : songsOf qs g with
    | nil => rw [hs] at hhead; simp at hhead
    | cons s' tail =>
      rw [hs] at hhead
      have hss : s' = s := by simpa using hhead
      subst hss
      have hset : songsOf (setSongs qs g tail) g = tail := songsOf_setSongs qs g q tail hq
      simp only [loopStep, hs, hset]
      refine ⟨registered_setSongs qs g tail ⟨q, hq⟩, by simp,
        ⟨played ++ [s'], [], by rw [hall, hs]; simp, ?_, rfl⟩, Or.inr ?_⟩
      · simp [loopEvents, playTrace_append, playTrace]
      · simp only [loopCost, List.tail_cons]; omega
  | exited =>
    simp only [loopStep]
    exact ⟨⟨q, hq⟩, by simp, ⟨played, part, hall, by simp [loopEvents], hpc⟩, by simp⟩
  | panicked => exact absurd hpc (by simp [PcOk])

theorem PcOk_part (pc : LoopPC) (rest : List song) (part : List Event)
    (h : PcOk pc rest part) : part <+: playTrace rest := by
  cases pc with
  | test => simp only [PcOk] at h; subst h; exact List.nil_prefix
  | fetch => simp only [PcOk] at h; rw [h.1]; exact List.nil_prefix
  | measure s => simp only [PcOk] at h; rw [h.1]; exact List.nil_prefix
  | send s cur fs =>
    simp only [PcOk] at h
    obtain ⟨hhead, -, pre, hpre, rfl⟩ := h
    cases rest with
    | nil => simp at hhead
    | cons s' tail =>
      have hss : s' = s := by simpa using hhead
      subst hss
      exact ⟨fs.map (Event.sent s') ++ [Event.removed s'] ++ playTrace tail,
        by simp [playTrace, hpre]⟩
  | reread s cur fs =>
    simp only [PcOk] at h
    obtain ⟨hhead, -, pre, hpre, rfl⟩ := h
    cases rest with
    | nil => simp at hhead
    | cons s' tail =>
      have hss : s' = s := by simpa using hhead
      subst hss
      exact ⟨fs.map (Event.sent s') ++ [Event.removed s'] ++ playTrace tail,
        by simp [playTrace, hpre]⟩
  | compare cur =>
    simp only [PcOk] at h
    obtain ⟨-, s, hhead, rfl⟩ := h
    cases rest with
    | nil => simp at hhead
    | cons s' tail =>
      have hss : s' = s := by simpa using hhead
      subst hss
      exact ⟨[Event.removed s'] ++ playTrace tail, by simp [playTrace]⟩
  | remove =>
    simp only [PcOk] at h
    obtain ⟨s, hhead, rfl⟩ := h
    cases rest with
    | nil => simp at hhead
    | cons s' tail =>
      have hss : s' = s := by simpa using hhead
      subst hss
      exact ⟨[Event.removed s'] ++ playTrace tail, by simp [playTrace]⟩
  | exited => simp only [PcOk] at h; rw [h.1]; exact List.nil_prefix
  | panicked => exact absurd h (by simp [PcOk])

/-- A step of the one loop keeps the invariant and, unless the loop has left,
lowers the step count. -/
theorem sysStep_loop_quiet (g : String) (all : List song) (st : Sys)
    (h : QuietInv g all st) :
    QuietInv g all (sysStep g st (.loop 0))
      ∧ (st.loops = [.exited] ∨ sysCost g (sysStep g st (.loop 0)) < sysCost g st) := by
  obtain ⟨hcr, hreg, hload, pc, played, part, hloops, hall, htrace, hpc⟩ := h
  obtain ⟨hreg', hnp, ⟨played', part', hall', htrace', hpc'⟩, hcost⟩ :=
    loopStep_quiet g all st.queues pc played part hreg hload hall hpc
  have hstep : sysStep g st (.loop 0)
      = { queues := (loopStep g st.queues pc).1, loops := [(loopStep g st.queues pc).2.1],
          trace := st.trace ++ (loopStep g st.queues pc).2.2,
          crashed := decide ((loopStep g st.queues pc).2.1 = .panicked) } := by
    simp [sysStep, hcr, hloops]
  rw [hstep]
  refine ⟨⟨by simpa using hnp, hreg', hload, _, played', part', rfl, hall', ?_, hpc'⟩, ?_⟩
  · simp only [loopEvents_append, htrace, htrace']
  · rcases hcost with h1 | h2
    · exact Or.inl (by rw [hloops, h1])
    · exact Or.inr (by simpa [sysCost, hloops] using h2)

/-- An append between a frame send and the re-read keeps the invariant, over
one more track, and starts no loop. -/
theorem sysStep_play_quiet (g : String) (all : List song) (st : Sys) (t : song)
    (h : QuietInv g all st) (hat : atReread st = true) (ht : t.loaded = true) :
    QuietInv g (all ++ [t]) (sysStep g st (.play t)) := by
  obtain ⟨hcr, hreg, hload, pc, played, part, hloops, hall, htrace, hpc⟩ := h
  cases pc with
  | reread s cur fs =>
    simp only [PcOk] at hpc
    obtain ⟨hhead, hcur, pre, hpre, hpart⟩ := hpc
    have hne : (songsOf st.queues g).length ≥ 1 := by
      cases hs : songsOf st.queues g with
      | nil => rw [hs] at hhead; simp at hhead
      | cons a b => simp
    have hlen : (enqueue st.queues g t).2 > 1 := by rw [enqueue_len]; omega
    have hstep : sysStep g st (.play t)
        = { st with queues := (enqueue st.queues g t).1,
                    trace := st.trace ++ [.appended t] } := by
      simp [sysStep, hcr, hlen]
    rw [hstep]
    refine ⟨hcr, registered_enqueue _ _ _, ?_, .reread s cur fs, played, part, hloops, ?_, ?_, ?_⟩
    · intro x hx
      rcases List.mem_append.mp hx with h1 | h1
      · exact hload x h1
      · rw [List.mem_singleton.mp h1]; exact ht
    · simp only [songsOf_enqueue, hall, List.append_assoc]
    · simp only [loopEvents_append, htrace, loopEvents, List.append_nil]
    · simp only [songsOf_enqueue, PcOk]
      refine ⟨?_, by rw [List.length_append]; omega, pre, hpre, hpart⟩
      cases hs : songsOf st.queues g with
      | nil => rw [hs] at hhead; simp at hhead
      | cons a b => rw [hs] at hhead; simpa using hhead
  | _ => simp [atReread, hloops] at hat

theorem sysRun_append (g : String) (a b : List Action) :
    ∀ st : Sys, sysRun g st (a ++ b) = sysRun g (sysRun g st a) b := by
  induction a with
  | nil => intro st; rfl
  | cons x xs ih =>
    intro st
    show sysRun g (sysStep g st x) (xs ++ b) = sysRun g (sysRun g (sysStep g st x) xs) b
    exact ih _

/-- The invariant holds along every run without skips whose appends arrive
between a frame send and the re-read. -/
theorem sysRun_quiet (g : String) (acts : List Action) :
    ∀ (all : List song) (st : Sys), QuietInv g all st → quietRun g st acts = true →
      QuietInv g (all ++ appendedBy acts) (sysRun g st acts) := by
  induction acts with
  | nil => intro all st h _; simpa [appendedBy, sysRun] using h
  | cons a as ih =>
    intro all st h hq
    simp only [quietRun, Bool.and_eq_true] at hq
    obtain ⟨ha, has⟩ := hq
    cases a with
    | play t =>
      simp only [Bool.and_eq_true] at ha
      have := ih (all ++ [t]) _ (sysStep_play_quiet g all st t h ha.1 ha.2) has
      simpa [appendedBy, sysRun] using this
    | skip => simp at ha
    | loop i =>
      have hi : i = 0 := by simpa using ha
      subst hi
      have := ih all _ (sysStep_loop_quiet g all st h).1 has
      simpa [appendedBy, sysRun] using this

/-- Left to itself, the loop leaves after at most the step count. -/
theorem quiet_terminates (g : String) (all : List song) :
    ∀ (n : Nat) (st : Sys), sysCost g st ≤ n → QuietInv g all st →
      ∃ k, QuietInv g all (sysRun g st (List.replicate k (.loop 0)))
        ∧ (sysRun g st (List.replicate k (.loop 0))).loops = [.exited] := by
  intro n
  induction n with
  | zero =>
    intro st hc h
    rcases (sysStep_loop_quiet g all st h).2 with h1 | h2
    · exact ⟨0, h, h1⟩
    · omega
  | succ m ih =>
    intro st hc h
    rcases (sysStep_loop_quiet g all st h).2 with h1 | h2
    · exact ⟨0, h, h1⟩
    · obtain ⟨k, hk1, hk2⟩ := ih _ (by omega) (sysStep_loop_quiet g all st h).1
      exact ⟨k + 1, by simpa [List.replicate_succ, sysRun] using hk1,
        by simpa [List.replicate_succ, sysRun] using hk2⟩

theorem quietInv_exited (g : String) (all : List song) (st : Sys)
    (h : QuietInv g all st) (he : st.loops = [.exited]) :
    songsOf st.queues g = [] ∧ loopEvents st.trace = playTrace all := by
  obtain ⟨-, -, -, pc, played, part, hloops, hall, htrace, hpc⟩ := h
  rw [he] at hloops
  have : pc = .exited := by simpa using hloops.symm
  subst this
  simp only [PcOk] at hpc
  obtain ⟨rfl, hrest⟩ := hpc
  rw [hrest] at hall
  simp only [List.append_nil] at hall htrace
  exact ⟨hrest, by rw [htrace, hall]⟩

theorem quietInv_played (g : String) (all : List song) (st : Sys)
    (h : QuietInv g all st) :
    ∃ played part, all = played ++ songsOf st.queues g
      ∧ loopEvents st.trace = playTrace played ++ part
      ∧ part <+: playTrace (songsOf st.queues g) := by
  obtain ⟨-, -, -, pc, played, part, -, hall, htrace, hpc⟩ := h
  exact ⟨played, part, hall, htrace, PcOk_part pc _ part hpc⟩

theorem loopStart_quiet (g : String) (qs : List songQueue) (hreg : registered qs g)
    (hloaded : ∀ t ∈ songsOf qs g, t.loaded = true) :
    QuietInv g (songsOf qs g) (loopStart qs) :=
  ⟨rfl, hreg, hloaded, .test, [], [], rfl, rfl, rfl, rfl⟩

/-- C4: take a registry whose queue for the guild holds loaded tracks, a loop
that starts on it, and any run with no skip in which loaded tracks are appended
only between a frame send and the re-read that follows. Over `all`, the tracks
of the start followed by the appended ones: nothing panics and the one loop
stays the only one; the queue is always `all` without the tracks played, and
the loop's events are the full play of those (each frame once, in order, then
the removal) followed by a beginning of the play of the queue; when the loop
has left, the queue is empty and its events are exactly the play of `all`; and
from every such state the loop, left to itself, leaves after finitely many
steps, with the queue empty and exactly the play of `all`. -/
theorem quiet_playback_streams_in_order (g : String) (qs : List songQueue)
    (acts : List Action) (hreg : registered qs g)
    (hloaded : ∀ t ∈ songsOf qs g, t.loaded = true)
    (hquiet : quietRun g (loopStart qs) acts = true) :
    (sysRun g (loopStart qs) acts).crashed = false
      ∧ (sysRun g (loopStart qs) acts).loops.length = 1
      ∧ (∃ played part,
          songsOf qs g ++ appendedBy acts
            = played ++ songsOf (sysRun g (loopStart qs) acts).queues g
          ∧ loopEvents (sysRun g (loopStart qs) acts).trace = playTrace played ++ part
          ∧ part <+: playTrace (songsOf (sysRun g (loopStart qs) acts).queues g))
      ∧ ((sysRun g (loopStart qs) acts).loops = [.exited] →
          songsOf (sysRun g (loopStart qs) acts).queues g = []
          ∧ loopEvents (sysRun g (loopStart qs) acts).trace
            = playTrace (songsOf qs g ++ appendedBy acts))
      ∧ ∃ n,
          (sysRun g (loopStart qs) (acts ++ List.replicate n (.loop 0))).loops = [.exited]
          ∧ (sysRun g (loopStart qs) (acts ++ List.replicate n (.loop 0))).crashed = false
          ∧ songsOf (sysRun g (loopStart qs) (acts ++ List.replicate n (.loop 0))).queues g = []
          ∧ loopEvents (sysRun g (loopStart qs) (acts ++ List.replicate n (.loop 0))).trace
            = playTrace (songsOf qs g ++ appendedBy acts) := by
  have hinv := sysRun_quiet g acts _ _ (loopStart_quiet g qs hreg hloaded) hquiet
  refine ⟨hinv.1, ?_, quietInv_played g _ _ hinv, quietInv_exited g _ _ hinv, ?_⟩
  · obtain ⟨-, -, -, pc, -, -, hloops, -⟩ := hinv
    rw [hloops]; rfl
  · obtain ⟨n, hn1, hn2⟩ := quiet_terminates g _ _ _ (le_refl _) hinv
    refine ⟨n, ?_⟩
    rw [sysRun_append]
    exact ⟨hn2, hn1.1, quietInv_exited g _ _ hn1 hn2⟩

/-- C4 at the queue A, with B appended after the frame of A was sent and
before the length was read again: the run is quiet, and after it the loop has
left with the queue empty, having sent the frame of A, removed A, sent the two
frames of B and removed B. -/
theorem quiet_playback_streams_in_order_witness :
    (sysRun "g" (loopStart [{ GuildID := "g", Songs := [trackA] }])
        [.loop 0, .loop 0, .loop 0, .loop 0, .play trackB, .loop 0, .loop 0, .loop 0,
         .loop 0, .loop 0, .loop 0, .loop 0, .loop 0, .loop 0, .loop 0, .loop 0, .loop 0,
         .loop 0, .loop 0, .loop 0]).loops = [.exited]
      ∧ songsOf (sysRun "g" (loopStart [{ GuildID := "g", Songs := [trackA] }])
        [.loop 0, .loop 0, .loop 0, .loop 0, .play trackB, .loop 0, .loop 0, .loop 0,
         .loop 0, .loop 0, .loop 0, .loop 0, .loop 0, .loop 0, .loop 0, .loop 0, .loop 0,
         .loop 0, .loop 0, .loop 0]).queues "g" = []
      ∧ loopEvents (sysRun "g" (loopStart [{ GuildID := "g", Songs := [trackA] }])
        [.loop 0, .loop 0, .loop 0, .loop 0, .play trackB, .loop 0, .loop 0, .loop 0,
         .loop 0, .loop 0, .loop 0, .loop 0, .loop 0, .loop 0, .loop 0, .loop 0, .loop 0,
         .loop 0, .loop 0, .loop 0]).trace
        = [.sent trackA [1], .removed trackA, .sent trackB [2], .sent trackB [3],
           .removed trackB] := by
  have h := quiet_playback_streams_in_order "g" [{ GuildID := "g", Songs := [trackA] }]
    [.loop 0, .loop 0, .loop 0, .loop 0, .play trackB, .loop 0, .loop 0, .loop 0,
     .loop 0, .loop 0, .loop 0, .loop 0, .loop 0, .loop 0, .loop 0, .loop 0, .loop 0,
     .loop 0, .loop 0, .loop 0]
    ⟨_, rfl⟩ (by decide) (by decide)
  have he := h.2.2.2.1 (by decide)
  exact ⟨by decide, he.1, he.2.trans (by decide)⟩

/-! ## C5, C6, C7: a skip and an append between two reads of the length -/

/-- C5: the loop streams T from the queue T, A. After the first frame, before
the length is read again, a skip removes T and an append adds C: the length is
2 as before, so the loop goes on to send the other two frames of T after its
re-read, then removes A unplayed and streams C, not A, next. -/
theorem skipped_track_keeps_streaming :
    songsOf (sysRun "g" (loopStart [{ GuildID := "g", Songs := [trackT, trackA] }])
        [.loop 0, .loop 0, .loop 0, .loop 0, .skip]).queues "g" = [trackA]
      ∧ (sysRun "g" (loopStart [{ GuildID := "g", Songs := [trackT, trackA] }])
          [.loop 0, .loop 0, .loop 0, .loop 0, .skip, .play trackC, .loop 0]).loops
        = [.send trackT 2 [[11], [12]]]
      ∧ sysRun "g" (loopStart [{ GuildID := "g", Songs := [trackT, trackA] }])
          [.loop 0, .loop 0, .loop 0, .loop 0, .skip, .play trackC, .loop 0,
           .loop 0, .loop 0, .loop 0, .loop 0, .loop 0, .loop 0, .loop 0,
           .loop 0, .loop 0, .loop 0, .loop 0, .loop 0, .loop 0, .loop 0, .loop 0, .loop 0]
        = { queues := [{ GuildID := "g", Songs := [] }], loops := [.exited],
            trace := [.sent trackT [10], .skipped trackT, .appended trackC,
              .sent trackT [11], .sent trackT [12], .removed trackA,
              .sent trackC [4], .removed trackC],
            crashed := false } := by
  decide

/-- C6: from the empty registry, the first `handlePlay` starts a loop for T;
after its first frame a skip empties the queue and a second `handlePlay`
appends C, reads length 1 and starts a second loop while the first has not
left its own: two calls of `playSongQueue` are under way, and the first goes
on to send the next frame of T. -/
theorem two_loops_after_skip_and_play :
    activeLoops (sysRun "g" idle [.play trackT, .loop 0, .loop 0, .loop 0, .loop 0]) = 1
      ∧ sysRun "g" idle [.play trackT, .loop 0, .loop 0, .loop 0, .loop 0, .skip, .play trackC]
        = { queues := [{ GuildID := "g", Songs := [trackC] }],
            loops := [.reread trackT 1 [[11], [12]], .test],
            trace := [.appended trackT, .sent trackT [10], .skipped trackT, .appended trackC],
            crashed := false }
      ∧ activeLoops (sysRun "g" idle
          [.play trackT, .loop 0, .loop 0, .loop 0, .loop 0, .skip, .play trackC]) = 2
      ∧ (sysRun "g" idle [.play trackT, .loop 0, .loop 0, .loop 0, .loop 0, .skip, .play trackC,
          .loop 0, .loop 0]).loops = [.reread trackT 1 [[12]], .test] := by
  decide

/-- C7: the loop removes tracks it never streamed. With the queue B, A, a skip
of B and an append of C between a send and the re-read leave the length at 2;
the loop finishes B and removes A, of which it sent no frame. With the queue
A, B, a skip that arrives after line 381 found the lengths equal and before
line 386 removes A, and line 386 then removes B, of which no frame was sent. -/
theorem loop_removes_unplayed_track :
    (sysRun "g" (loopStart [{ GuildID := "g", Songs := [trackB, trackA] }])
        [.loop 0, .loop 0, .loop 0, .loop 0, .skip, .play trackC, .loop 0,
         .loop 0, .loop 0, .loop 0, .loop 0, .loop 0]).trace
        = [.sent trackB [2], .skipped trackB, .appended trackC, .sent trackB [3],
           .removed trackA]
      ∧ sysRun "g" (loopStart [{ GuildID := "g", Songs := [trackA, trackB] }])
          [.loop 0, .loop 0, .loop 0, .loop 0, .loop 0, .loop 0, .loop 0, .skip, .loop 0]
        = { queues := [{ GuildID := "g", Songs := [] }], loops := [.test],
            trace := [.sent trackA [1], .skipped trackA, .removed trackB],
            crashed := false } := by
  decide

/-! ## C10: `search` -/

theorem parseLines_ok (unmarshal : String → Except GoErr searchResult) (lines : List String) :
    ∀ results : List searchResult,
      (∀ l ∈ lines.filter (fun line => line ≠ ""), (unmarshal l).isOk = true) →
      ∃ more, parseLines unmarshal lines results = (results ++ more, none)
        ∧ (lines.filter (fun line => line ≠ "")).map unmarshal = more.map Except.ok := by
  induction lines with
  | nil => intro results _; exact ⟨[], by simp [parseLines], rfl⟩
  | cons line lines ih =>
    intro results h
    by_cases hl : line = ""
    · have h' : ∀ l ∈ lines.filter (fun line => line ≠ ""), (unmarshal l).isOk = true := by
        intro l hm; exact h l (by simpa [List.filter, hl] using hm)
      obtain ⟨more, h1, h2⟩ := ih results h'
      exact ⟨more, by simp only [parseLines, hl, if_true]; exact h1,
        by simpa [List.filter, hl] using h2⟩
    · have hf : (line :: lines).filter (fun line => line ≠ "")
          = line :: lines.filter (fun line => line ≠ "") := by
        simp [List.filter, hl]
      rw [hf] at h
      obtain ⟨r, hr⟩ : ∃ r, unmarshal line = .ok r := by
        have := h line (List.mem_cons_self _ _)
        cases hu : unmarshal line with
        | error e => rw [hu] at this; cases this
        | ok r => exact ⟨r, rfl⟩
      obtain ⟨more, h1, h2⟩ := ih (results ++ [r]) (fun l hm => h l (List.mem_cons_of_mem _ hm))
      refine ⟨r :: more, ?_, ?_⟩
      · simp only [parseLines, hl, if_false, hr, h1, List.append_assoc, List.singleton_append]
      · rw [hf, List.map_cons, hr, h2, List.map_cons]

theorem parseLines_error (unmarshal : String → Except GoErr searchResult)
    (lines : List String) :
    ∀ results : List searchResult,
      (∃ l ∈ lines.filter (fun line => line ≠ ""), (unmarshal l).isOk = false) →
      ∃ e, parseLines unmarshal lines results = ([], some e) := by
  induction lines with
  | nil => intro results h; obtain ⟨l, hm, _⟩ := h; simp at hm
  | cons line lines ih =>
    intro results h
    obtain ⟨l, hm, he⟩ := h
    by_cases hl : line = ""
    · have hm' : l ∈ lines.filter (fun line => line ≠ "") := by
        simpa [List.filter, hl] using hm
      obtain ⟨e', h'⟩ := ih results ⟨l, hm', he⟩
      exact ⟨e', by simp only [parseLines, hl, if_true]; exact h'⟩
    · cases hu : unmarshal line with
      | error e' => exact ⟨e', by simp only [parseLines, hl, if_false, hu]⟩
      | ok r =>
        have hm' : l ∈ lines.filter (fun line => line ≠ "") := by
          have : l = line ∨ l ∈ lines.filter (fun line => line ≠ "") := by
            simpa [List.filter, hl] using hm
          rcases this with rfl | h2
          · rw [hu] at he; cases he
          · exact h2
        obtain ⟨e', h'⟩ := ih (results ++ [r]) ⟨l, hm', he⟩
        exact ⟨e', by simp only [parseLines, hl, if_false, hu, h']⟩

/-- C10: when `yt-dlp` has run, `search` splits its output at the newlines and
skips the empty lines. If the decoder accepts every other line, `search`
returns no error and one result per such line, in order, each the decoding of
its line; if the decoder rejects one of them, `search` returns an error and no
results. -/
theorem search_parses_lines (unmarshal : String → Except GoErr searchResult)
    (output : String) :
    ((∀ l ∈ nonBlankLines output, (unmarshal l).isOk = true) →
        ∃ results, search (.ok output) unmarshal = (results, none)
          ∧ (nonBlankLines output).map unmarshal = results.map Except.ok)
      ∧ ((∃ l ∈ nonBlankLines output, (unmarshal l).isOk = false) →
        ∃ e, search (.ok output) unmarshal = ([], some e)) := by
  refine ⟨fun h => ?_, fun h => ?_⟩
  · obtain ⟨more, h1, h2⟩ := parseLines_ok unmarshal (linesOf output) [] h
    exact ⟨more, by simpa [search] using h1, h2⟩
  · exact parseLines_error unmarshal (linesOf output) [] h

/-- C10 at three well-formed lines and one empty line: three results in the
order of the lines; and at the same output followed by a line that is not an
object: an error and no results. -/
theorem search_parses_lines_witness :
    search (.ok demoOutput) demoUnmarshal
        = ([{ Title := "One", URL := "u1", Uploader := "p1" },
            { Title := "Two", URL := "u2", Uploader := "p2" },
            { Title := "Three", URL := "u3", Uploader := "p3" }], none)
      ∧ (∃ e, search (.ok (demoOutput ++ "\n[]")) demoUnmarshal = ([], some e)) := by
  obtain ⟨results, h1, h2⟩ := (search_parses_lines demoUnmarshal demoOutput).1 (by decide)
  refine ⟨?_, (search_parses_lines demoUnmarshal (demoOutput ++ "\n[]")).2 (by decide)⟩
  rw [h1]
  have : results.map (Except.ok : searchResult → Except GoErr searchResult)
      = [Except.ok { Title := "One", URL := "u1", Uploader := "p1" },
         Except.ok { Title := "Two", URL := "u2", Uploader := "p2" },
         Except.ok { Title := "Three", URL := "u3", Uploader := "p3" }] := by
    rw [← h2]; decide
  match results, this with
  | [a, b, c], h =>
    simp only [List.map, List.cons.injEq, Except.ok.injEq, and_true] at h
    obtain ⟨rfl, rfl, rfl⟩ := h
    rfl

/-! ## C11: the names that `find` matches -/

theorem hexEncode_append (a b : List UInt8) :
    (hexEncode (a ++ b)).data = (hexEncode a).data ++ (hexEncode b).data := by
  simp [hexEncode, List.flatMap_append]

/-- When the bytes of one url begin the bytes of another, the `FileName` of
the first begins the artifact name of the second, whatever the extension. -/
theorem hexName_begins_artifactName (r1 r2 ext : String) (h : r1.data <+: r2.data) :
    hasPrefix (artifactName r2 ext) (hexName r1) = true := by
  obtain ⟨t, ht⟩ := h
  have hd : (hexName r2).data
      = (hexName r1).data ++ (hexEncode (t.flatMap String.utf8EncodeChar)).data := by
    simp only [hexName, ← ht, List.flatMap_append, hexEncode_append]
  simp only [hasPrefix, artifactName, String.data_append, hd, List.append_assoc]
  exact List.isPrefixOf_iff_prefix.mpr (List.prefix_append _ _)

/-- C11: the references `a` and `ab` are distinct, yet the `FileName` of `a`,
which is `61`, begins the artifact name `6162.opus` of `ab`; in a directory
that holds the artifacts of both, `find` for `a` passes over its own file
`61.opus` and ends with the artifact of `ab`, the last name of the walk that
begins with `61`. The same holds for a url and the same url with a query
appended. -/
theorem find_selects_other_artifact :
    hexName "a" = "61" ∧ artifactName "ab" "opus" = "6162.opus"
      ∧ hasPrefix (artifactName "ab" "opus") (hexName "a") = true
      ∧ (newSong "a").find [.ok ".", .ok (artifactName "a" "opus"),
            .ok (artifactName "ab" "opus")]
        = ({ newSong "a" with FullFileName := some (artifactName "ab" "opus") }, .ok)
      ∧ hasPrefix (artifactName "yt.be/x?t=9" "webm") (hexName "yt.be/x") = true := by
  decide

end MusicBot
